import Mathlib

/-!
Shallow embedding of the Nexus Bootstrap Server repository (three JavaScript
source files: the NexusBootstrapServer class, the Socket.IO DHTNode variant,
and the Express/WebSocket server.js variants), together with theorems checking
the natural-language specification against this embedding.

Modelling conventions: timestamps are natural numbers (milliseconds since
epoch), JavaScript strings are Lean strings, and a JavaScript Map is an
association list kept in insertion order, mirroring Map iteration semantics
(set on an existing key updates in place, set on a fresh key appends).
-/

/-- Value of a hexadecimal digit with the given code point, as computed by
JavaScript parseInt(ch, 16) followed by ToInt32 inside a bitwise operator:
a non-hexadecimal character parses to NaN, which ToInt32 sends to 0. -/
def hexValN (n : Nat) : Nat :=
  if 48 ≤ n ∧ n ≤ 57 then n - 48
  else if 97 ≤ n ∧ n ≤ 102 then n - 87
  else if 65 ≤ n ∧ n ≤ 70 then n - 55
  else 0

/-- Value of a hexadecimal digit character. -/
def hexVal (c : Char) : Nat := hexValN c.toNat

/-- Single lowercase hexadecimal digit character, as produced by JavaScript
Number.prototype.toString(16) on a value below 16. -/
def hexDigit (n : Nat) : Char :=
  if n < 10 then Char.ofNat (48 + n) else Char.ofNat (87 + n)

/-- Numeric value of a string of hexadecimal digit characters read as an
unsigned big integer (big-endian). This is the spec-side notion used to state
the numeric-comparison requirement on XOR distances. -/
def hexNum : List Char → Nat
  | [] => 0
  | c :: cs => hexVal c * 16 ^ cs.length + hexNum cs

/-- Character code points that are lowercase hexadecimal digits (0-9, a-f).
SHA-256 hex digests consist solely of these. -/
def IsLowerHexN (n : Nat) : Prop := (48 ≤ n ∧ n ≤ 57) ∨ (97 ≤ n ∧ n ≤ 102)

/-- Characters that are lowercase hexadecimal digits. -/
def IsLowerHex (c : Char) : Prop := IsLowerHexN c.toNat

instance (n : Nat) : Decidable (IsLowerHexN n) := by unfold IsLowerHexN; infer_instance

instance (c : Char) : Decidable (IsLowerHex c) := by unfold IsLowerHex; infer_instance

/-- Lexicographic less-or-equal on strings compared code point by code point.
On the plain ASCII hexadecimal strings this development applies it to, this is
exactly what the JavaScript comparator a.localeCompare(b) deciding non-positive
computes. -/
def lexLe : List Char → List Char → Bool
  | [], _ => true
  | _ :: _, [] => false
  | a :: as, b :: bs =>
      if a.toNat < b.toNat then true
      else if b.toNat < a.toNat then false
      else lexLe as bs

namespace DHTNode

/-- Entry of the DHTNode routing table, as built by DHTNode.addPeer. -/
structure Peer where
  id : String
  walletAddress : String
  socketId : String
  lastSeen : Nat
  connections : Nat
deriving DecidableEq, Repr

/-- JavaScript DHTNode.xorDistance(hash1, hash2): exclusive-or of the two hex
strings nibble by nibble over the common prefix length, re-encoded as a hex
string via toString(16). -/
def xorDistance (hash1 hash2 : String) : String :=
  String.mk (List.zipWith (fun a b => hexDigit (hexVal a ^^^ hexVal b)) hash1.data hash2.data)

/-- JavaScript DHTNode.findClosestPeers(targetWalletAddress, k). The SHA-256
hex digest comes from the Node crypto library, which is external to this
repository, so the digest function is a parameter hashAddress; theorems assume
only that every digest is 64 lowercase hexadecimal characters, which holds for
SHA-256 hex digests. Array.prototype.sort is a stable sort ordering its output
by the comparator a.distance.localeCompare(b.distance), modelled as a stable
merge sort by lexLe on the distance strings. -/
def findClosestPeers (hashAddress : String → String) (routingTable : List Peer)
    (targetWalletAddress : String) (k : Nat) : List Peer :=
  let targetHash := hashAddress targetWalletAddress
  let sorted := (routingTable.map (fun peer =>
      (peer, xorDistance targetHash (hashAddress peer.walletAddress)))).mergeSort
      (fun a b => lexLe a.2.data b.2.data)
  (sorted.take k).map (fun item => item.1)

end DHTNode

/-- Numeric value of a little list of base-16 digit values, big-endian. -/
def valNum : List Nat → Nat
  | [] => 0
  | v :: vs => v * 16 ^ vs.length + valNum vs

/-- Concrete digest function for witnesses: a valid 64-character lowercase hex
digest for every input, with two distinct digest values. -/
def testDigest (s : String) : String :=
  if s = "alice" then String.mk (List.replicate 64 '1') else String.mk (List.replicate 64 '2')

/-- Concrete two-peer routing table with distinct identity keys. -/
def testTable : List DHTNode.Peer :=
  [⟨"p1", "alice", "s1", 0, 0⟩, ⟨"p2", "bob", "s2", 0, 0⟩]

/-- Concrete two-peer routing table whose peers share one identity key. -/
def cexTable : List DHTNode.Peer :=
  [⟨"p1", "w", "s1", 0, 0⟩, ⟨"p2", "w", "s2", 0, 0⟩]

/-! Shared helpers for the Express-based variants: JavaScript Map and Set
semantics over association lists and peer-id lists, and JavaScript string
truthiness. -/

/-- JavaScript Map.prototype.set on an association list in insertion order:
an existing key is updated in place, a fresh key is appended. -/
def mapSet {α : Type} (m : List (String × α)) (k : String) (v : α) : List (String × α) :=
  if m.any (fun kv => kv.1 == k) then m.map (fun kv => if kv.1 == k then (k, v) else kv)
  else m ++ [(k, v)]

/-- JavaScript Map.prototype.get. -/
def mapGet {α : Type} (m : List (String × α)) (k : String) : Option α :=
  match m.find? (fun kv => kv.1 == k) with
  | some kv => some kv.2
  | none => none

/-- JavaScript Map.prototype.delete (state part). -/
def mapDelete {α : Type} (m : List (String × α)) (k : String) : List (String × α) :=
  m.filter (fun kv => kv.1 != k)

/-- JavaScript Set.prototype.add on a duplicate-free list. -/
def setAdd (s : List String) (x : String) : List String :=
  if x ∈ s then s else s ++ [x]

/-- JavaScript x || d for an optional string field: undefined and the empty
string are both falsy. -/
def jsOrStr : Option String → String → String
  | none, d => d
  | some s, d => if s = "" then d else s

/-- Decides whether the first character list begins the second. -/
def leadsChars : List Char → List Char → Bool
  | [], _ => true
  | _ :: _, [] => false
  | a :: as, b :: bs => a == b && leadsChars as bs

/-- JavaScript String.prototype.includes, over character lists. -/
def includesChars (needle : List Char) : List Char → Bool
  | [] => leadsChars needle []
  | c :: t => leadsChars needle (c :: t) || includesChars needle t

/-- ToInt32: JavaScript bitwise operators coerce to a signed 32-bit result. -/
def toInt32 (n : Int) : Int := (n + 2 ^ 31) % 2 ^ 32 - 2 ^ 31

namespace NexusBootstrapServer

/-- Declared metadata carried by a registration request body. Option models
absent JSON fields. The nested deviceInfo object is read only through
deviceInfo?.platform, modelled by the single field deviceInfoPlatform. -/
structure Metadata where
  bundleId : Option String := none
  appName : Option String := none
  appVersion : Option String := none
  userAgent : Option String := none
  deviceInfoPlatform : Option String := none
  capabilities : Option (List String) := none
deriving DecidableEq, Repr

/-- Result object of NexusBootstrapServer.classifyPeer. -/
structure Classification where
  appVariant : String
  trustLevel : String
  appName : String
  appVersion : String
  bundleId : String
  userAgent : String
  isOfficial : Bool
deriving DecidableEq, Repr

/-- Fixed allow-list of official bundle identifiers from classifyPeer. -/
def officialBundleIds : List String := ["com.sufiyan.m1.Nexus", "com.nexus.mobile.v1"]

/-- JavaScript NexusBootstrapServer.classifyPeer(metadata): allow-listed
bundleId wins, else a case-insensitive brand-token test on appName, else
custom/untrusted; absent fields are reported as the string Unknown. -/
def classifyPeer (metadata : Metadata) : Classification :=
  let isOfficialBundle := match metadata.bundleId with
    | some b => officialBundleIds.contains b
    | none => false
  let nameHasNexus := match metadata.appName with
    | some a => includesChars "nexus".data a.toLower.data
    | none => false
  let appVariant := if isOfficialBundle then "official"
    else if nameHasNexus then "fork" else "custom"
  let trustLevel := if isOfficialBundle then "trusted"
    else if nameHasNexus then "semi-trusted" else "untrusted"
  { appVariant := appVariant
    trustLevel := trustLevel
    appName := jsOrStr metadata.appName "Unknown"
    appVersion := jsOrStr metadata.appVersion "Unknown"
    bundleId := jsOrStr metadata.bundleId "Unknown"
    userAgent := jsOrStr metadata.userAgent "Unknown"
    isOfficial := appVariant == "official" }

/-- Metadata object stored inside a peer record: the request metadata spread
plus the defaulted userAgent, platform, appVersion and capabilities fields. -/
structure StoredMetadata where
  bundleId : Option String
  appName : Option String
  userAgent : String
  platform : String
  appVersion : String
  capabilities : List String
deriving DecidableEq, Repr

/-- Builds the stored metadata object of handlePeerRegistration. -/
def storeMetadata (m : Metadata) : StoredMetadata :=
  { bundleId := m.bundleId
    appName := m.appName
    userAgent := jsOrStr m.userAgent "Unknown"
    platform := jsOrStr m.deviceInfoPlatform "unknown"
    appVersion := jsOrStr m.appVersion "unknown"
    capabilities := m.capabilities.getD [] }

/-- Peer record stored in the activePeers map. -/
structure PeerRecord where
  nodeId : String
  address : String
  clientIP : String
  classification : Classification
  metadata : StoredMetadata
  registeredAt : Nat
  lastSeen : Nat
  heartbeats : Nat
  region : String
deriving DecidableEq, Repr

/-- JavaScript Math.abs of the running int32 hash, as in simpleHash. -/
def simpleHash (str : String) : Nat :=
  (str.data.foldl (fun hash c => toInt32 (toInt32 (hash * 32) - hash + c.toNat)) 0).natAbs

/-- Fixed region tag list of detectRegion. -/
def regions : List String := ["us-east", "us-west", "eu-west", "asia-pacific"]

/-- JavaScript NexusBootstrapServer.detectRegion(clientIP); startsWith is
rendered character by character via leadsChars. -/
def detectRegion (clientIP : String) : String :=
  if leadsChars "192.168.".data clientIP.data || clientIP == "127.0.0.1" then "local"
  else regions.getD (simpleHash clientIP % regions.length) ""

/-- Aggregate counters of this.nodeStats that the modelled operations touch. -/
structure NodeStats where
  totalRegistrations : Nat
  official : Nat
  forks : Nat
  custom : Nat
  peakPeers : Nat
deriving DecidableEq, Repr

/-- Mutable state of a NexusBootstrapServer instance: the activePeers map, the
peersByRegion secondary index, and the aggregate counters. -/
structure ServerState where
  activePeers : List (String × PeerRecord)
  peersByRegion : List (String × List String)
  nodeStats : NodeStats
deriving DecidableEq, Repr

/-- JavaScript NexusBootstrapServer.addToRegion(region, peerId): create the
region's set when absent, then add the peer id to it. -/
def addToRegion (idx : List (String × List String)) (region peerId : String) :
    List (String × List String) :=
  let idx2 := if (mapGet idx region).isSome then idx else mapSet idx region []
  mapSet idx2 region (setAdd ((mapGet idx2 region).getD []) peerId)

/-- JavaScript NexusBootstrapServer.removeFromRegion(region, peerId). -/
def removeFromRegion (idx : List (String × List String)) (region peerId : String) :
    List (String × List String) :=
  match mapGet idx region with
  | some s => mapSet idx region (s.filter (fun x => x != peerId))
  | none => idx

/-- JavaScript NexusBootstrapServer.updateStats(classification), invoked while
registering after the peer was stored. -/
def updateStats (st : ServerState) (c : Classification) : ServerState :=
  let s0 := st.nodeStats
  let s1 := { s0 with totalRegistrations := s0.totalRegistrations + 1 }
  let s2 := if c.appVariant == "official" then { s1 with official := s1.official + 1 }
    else if c.appVariant == "fork" then { s1 with forks := s1.forks + 1 }
    else { s1 with custom := s1.custom + 1 }
  { st with nodeStats := { s2 with peakPeers := max s2.peakPeers st.activePeers.length } }

/-- Candidate shape returned by selectBootstrapPeers. -/
structure BootstrapCandidate where
  nodeId : String
  address : String
  classification : Classification
  region : String
  lastSeen : Nat
deriving DecidableEq, Repr

/-- JavaScript NexusBootstrapServer.getPeersByFilter(filterFn) over the
activePeers map values in insertion order. -/
def getPeersByFilter (st : ServerState) (f : PeerRecord → Bool) : List PeerRecord :=
  (st.activePeers.map (fun kv => kv.2)).filter f

/-- JavaScript NexusBootstrapServer.selectBootstrapPeers(requestingPeerId,
region, classification): three priority tiers with a cap of 10, tier one
capped at 4, tier three only when fewer than 3 were selected. -/
def selectBootstrapPeers (st : ServerState) (requestingPeerId region : String)
    (_classification : Classification) : List BootstrapCandidate :=
  let maxPeers := 10
  let peers1 := (getPeersByFilter st (fun p =>
      p.classification.appVariant == "official" && p.region == region
        && p.nodeId != requestingPeerId)).take 4
  let peers2 := if peers1.length < maxPeers then
      peers1 ++ (getPeersByFilter st (fun p =>
        p.classification.trustLevel != "untrusted" && p.region == region
          && p.nodeId != requestingPeerId
          && !(peers1.any (fun q => q.nodeId == p.nodeId)))).take (maxPeers - peers1.length)
    else peers1
  let peers3 := if peers2.length < 3 then
      peers2 ++ (getPeersByFilter st (fun p =>
        p.nodeId != requestingPeerId
          && !(peers2.any (fun q => q.nodeId == p.nodeId)))).take (maxPeers - peers2.length)
    else peers2
  peers3.map (fun p =>
    { nodeId := p.nodeId, address := p.address, classification := p.classification,
      region := p.region, lastSeen := p.lastSeen })

/-- Registration request body of the register route. Absent or empty peerId
and address are both falsy in the source's validation test, so both are
modelled by the empty string. -/
structure PeerData where
  peerId : String
  address : String
  port : Option Nat
  metadata : Metadata
deriving DecidableEq, Repr

/-- JavaScript port || 8080: undefined and 0 are falsy. -/
def portOrDefault : Option Nat → Nat
  | some p => if p = 0 then 8080 else p
  | none => 8080

/-- Peer record built by handlePeerRegistration for a valid request. -/
def mkPeerRecord (pd : PeerData) (clientIP : String) (now : Nat) : PeerRecord :=
  { nodeId := pd.peerId
    address := pd.address ++ ":" ++ toString (portOrDefault pd.port)
    clientIP := clientIP
    classification := classifyPeer pd.metadata
    metadata := storeMetadata pd.metadata
    registeredAt := now
    lastSeen := now
    heartbeats := 0
    region := detectRegion clientIP }

/-- Successful response body of handlePeerRegistration (the fields the spec
claims touch). -/
structure RegistrationResult where
  nodeId : String
  assignedRegion : String
  classification : Classification
  peers : List BootstrapCandidate
deriving DecidableEq, Repr

/-- JavaScript NexusBootstrapServer.handlePeerRegistration(peerData, clientIP)
at time now. A missing peerId or address throws before any mutation, which the
register route reports as a 500 with the state untouched: modelled as
Except.error paired with the unchanged state. -/
def handlePeerRegistration (st : ServerState) (pd : PeerData) (clientIP : String) (now : Nat) :
    Except String RegistrationResult × ServerState :=
  if pd.peerId = "" ∨ pd.address = "" then
    (Except.error "Missing required fields: peerId, address", st)
  else
    let peerRecord := mkPeerRecord pd clientIP now
    let st1 := { st with
      activePeers := mapSet st.activePeers pd.peerId peerRecord,
      peersByRegion := addToRegion st.peersByRegion peerRecord.region pd.peerId }
    let st2 := updateStats st1 peerRecord.classification
    let result : RegistrationResult :=
      { nodeId := pd.peerId
        assignedRegion := peerRecord.region
        classification := peerRecord.classification
        peers := selectBootstrapPeers st2 pd.peerId peerRecord.region peerRecord.classification }
    (Except.ok result, st2)

/-- Outcome of the heartbeat route: 200 with the next deadline, or 404. -/
inductive HeartbeatOutcome where
  | ok (nextHeartbeat : Nat)
  | notFound
deriving DecidableEq, Repr

/-- JavaScript heartbeat route: only an existing (and truthy) nodeId gets its
lastSeen refreshed and heartbeats incremented; otherwise 404 and no change. -/
def heartbeatRoute (st : ServerState) (nodeId : String) (now : Nat) :
    HeartbeatOutcome × ServerState :=
  match mapGet st.activePeers nodeId with
  | some peer =>
      if nodeId = "" then (HeartbeatOutcome.notFound, st)
      else
        let peer2 := { peer with lastSeen := now, heartbeats := peer.heartbeats + 1 }
        (HeartbeatOutcome.ok (now + 120000),
          { st with activePeers := mapSet st.activePeers nodeId peer2 })
  | none => (HeartbeatOutcome.notFound, st)

/-- JavaScript NexusBootstrapServer.removePeer(peerId). -/
def removePeer (st : ServerState) (peerId : String) : ServerState :=
  match mapGet st.activePeers peerId with
  | some peer =>
      { st with activePeers := mapDelete st.activePeers peerId,
                peersByRegion := removeFromRegion st.peersByRegion peer.region peerId }
  | none => st

/-- JavaScript unregister route. -/
def unregisterRoute (st : ServerState) (nodeId : String) : Bool × ServerState :=
  if nodeId ≠ "" ∧ (mapGet st.activePeers nodeId).isSome then (true, removePeer st nodeId)
  else (false, st)

/-- JavaScript NexusBootstrapServer.cleanupInactivePeers() at tick time now:
every peer whose lastSeen lies before the five-minute cutoff is removed via
removePeer. -/
def cleanupInactivePeers (st : ServerState) (now : Nat) : ServerState :=
  (st.activePeers.filter (fun kv => kv.2.lastSeen < now - 300000)).foldl
    (fun s kv => removePeer s kv.1) st

end NexusBootstrapServer

/-- JavaScript port || 8080: undefined and 0 are both falsy. -/
def portOrDefault : Option Nat → Nat
  | some p => if p = 0 then 8080 else p
  | none => 8080

namespace PeerManager

/-- Peer record stored by PeerManager.addPeer: the id, the announced data and
the liveness timestamps. -/
structure Peer where
  id : String
  address : String
  port : Nat
  capabilities : List String
  lastSeen : Nat
  joined : Nat
deriving DecidableEq, Repr

/-- Second argument of addPeer as built by the announce route. -/
structure PeerInput where
  address : String
  port : Nat
  capabilities : List String
deriving DecidableEq, Repr

/-- State of a PeerManager: the peers map and the WebSocket connections map,
the latter modelled by opaque handle numbers. -/
structure State where
  peers : List (String × Peer)
  connections : List (String × Nat)
deriving DecidableEq, Repr

/-- JavaScript PeerManager.addPeer(peerId, peerData) at time now: builds the
record and stores it under peerId, replacing any previous record. -/
def addPeer (st : State) (peerId : String) (peerData : PeerInput) (now : Nat) : State × Peer :=
  let peer : Peer :=
    { id := peerId, address := peerData.address, port := peerData.port,
      capabilities := peerData.capabilities, lastSeen := now, joined := now }
  ({ st with peers := mapSet st.peers peerId peer }, peer)

/-- JavaScript announce route: 400 when peerId is missing, otherwise addPeer
with the defaulted address, port and capabilities. -/
def announceRoute (st : State) (peerId : String) (address : Option String)
    (port : Option Nat) (capabilities : Option (List String)) (reqIp : String) (now : Nat) :
    Except String Peer × State :=
  if peerId = "" then (Except.error "peerId is required", st)
  else
    let r := addPeer st peerId
      { address := jsOrStr address reqIp, port := portOrDefault port,
        capabilities := capabilities.getD ["dht", "webrtc"] } now
    (Except.ok r.2, r.1)

/-- JavaScript PeerManager.updatePeerActivity(peerId) at time now: refreshes
lastSeen when the peer exists and silently does nothing otherwise. -/
def updatePeerActivity (st : State) (peerId : String) (now : Nat) : State :=
  match mapGet st.peers peerId with
  | some peer => { st with peers := mapSet st.peers peerId { peer with lastSeen := now } }
  | none => st

/-- HTTP status and success flag of a route reply. -/
structure HttpOutcome where
  status : Nat
  success : Bool
deriving DecidableEq, Repr

/-- JavaScript server.js heartbeat route: 400 when peerId is missing,
otherwise updatePeerActivity followed by an unconditional 200 success. -/
def heartbeatRoute (st : State) (peerId : String) (now : Nat) : HttpOutcome × State :=
  if peerId = "" then ({ status := 400, success := false }, st)
  else ({ status := 200, success := true }, updatePeerActivity st peerId now)

/-- JavaScript PeerManager.removePeer(peerId): deletes the peer and its
connection, reporting whether a record was removed. -/
def removePeer (st : State) (peerId : String) : Bool × State :=
  ((mapGet st.peers peerId).isSome,
   { peers := mapDelete st.peers peerId, connections := mapDelete st.connections peerId })

/-- JavaScript PeerManager.cleanupStalePeers(maxAge) at time now: collects the
ids whose age exceeds maxAge over the snapshot, then removes each. -/
def cleanupStalePeers (st : State) (now : Nat) (maxAge : Nat) : State :=
  let stale := (st.peers.filter (fun kv => now - kv.2.lastSeen > maxAge)).map (fun kv => kv.1)
  stale.foldl (fun s peerId => (removePeer s peerId).2) st

end PeerManager

namespace Signaling

/-- WebSocket handle as the relay sees it: an opaque identifier plus the
readyState field (WebSocket.OPEN is 1). -/
structure WsHandle where
  wsId : Nat
  readyState : Nat
deriving DecidableEq, Repr

/-- Entry of the signaling server's peers map. -/
structure PeerEntry where
  ws : WsHandle
  lastSeen : Nat
  nodeInfo : String
  address : String
deriving DecidableEq, Repr

/-- Message serialized to the target's transport on a successful relay; the
constant type tag signaling of the wire object is implicit in the type. -/
structure RelayedMessage where
  action : String
  fromPeerId : String
  payload : String
  timestamp : Nat
deriving DecidableEq, Repr

/-- Outcome of relaySignalingMessage: an error report back to the sender, or
the message delivered to the target's WebSocket handle. -/
inductive RelayOutcome where
  | targetNotFound (toPeerId : String)
  | targetUnreachable (toPeerId : String)
  | delivered (target : WsHandle) (message : RelayedMessage)
deriving DecidableEq, Repr

/-- WebSocket.OPEN. -/
def OPEN : Nat := 1

/-- JavaScript relaySignalingMessage(action, targetPeerId, fromPeerId,
payload) at time now over the peers map: missing record fails, non-open
transport fails, otherwise the tuple is sent to the target's handle. -/
def relaySignalingMessage (peers : List (String × PeerEntry))
    (action targetPeerId fromPeerId payload : String) (now : Nat) : RelayOutcome :=
  match mapGet peers targetPeerId with
  | none => RelayOutcome.targetNotFound targetPeerId
  | some targetPeer =>
      if targetPeer.ws.readyState ≠ OPEN then RelayOutcome.targetUnreachable targetPeerId
      else RelayOutcome.delivered targetPeer.ws
        { action := action, fromPeerId := fromPeerId, payload := payload, timestamp := now }

end Signaling

/-- Concrete peers map for the relay witness: one registered peer with an open
WebSocket. -/
def relayPeers : List (String × Signaling.PeerEntry) :=
  [("bob", { ws := { wsId := 7, readyState := 1 }, lastSeen := 0,
             nodeInfo := "", address := "10.0.0.9" })]

/-- Empty NexusBootstrapServer state. -/
def nexusEmpty : NexusBootstrapServer.ServerState :=
  { activePeers := [], peersByRegion := [],
    nodeStats := { totalRegistrations := 0, official := 0, forks := 0, custom := 0,
                   peakPeers := 0 } }

/-- Empty PeerManager state. -/
def pmEmpty : PeerManager.State := { peers := [], connections := [] }

/-- Concrete stale peer record for the eviction witness. -/
def stalePeerRec : NexusBootstrapServer.PeerRecord :=
  { nodeId := "old", address := "a:1", clientIP := "127.0.0.1",
    classification := NexusBootstrapServer.classifyPeer {},
    metadata := NexusBootstrapServer.storeMetadata {},
    registeredAt := 0, lastSeen := 0, heartbeats := 0, region := "local" }

/-- Concrete fresh peer record for the eviction witness. -/
def freshPeerRec : NexusBootstrapServer.PeerRecord :=
  { stalePeerRec with nodeId := "fresh", lastSeen := 900000 }

/-- Concrete registry with one stale and one fresh peer. -/
def evictState : NexusBootstrapServer.ServerState :=
  { nexusEmpty with activePeers := [("old", stalePeerRec), ("fresh", freshPeerRec)] }

/-- Concrete stale PeerManager peer and state. -/
def pmStalePeer : PeerManager.Peer :=
  { id := "old", address := "a", port := 1, capabilities := [], lastSeen := 0, joined := 0 }

/-- Concrete PeerManager state with one stale peer. -/
def pmEvictState : PeerManager.State :=
  { peers := [("old", pmStalePeer)], connections := [] }

/-- Server state after registering peer p from 127.0.0.1 (region local) and
then re-registering the same p from the public address 8.8.8.8 (hashed
region). -/
def c7State : NexusBootstrapServer.ServerState :=
  (NexusBootstrapServer.handlePeerRegistration
    (NexusBootstrapServer.handlePeerRegistration nexusEmpty
      { peerId := "p", address := "1.2.3.4", port := none, metadata := {} } "127.0.0.1" 0).2
    { peerId := "p", address := "1.2.3.4", port := none, metadata := {} } "8.8.8.8" 5).2

/-- Classification of a peer registered with an official bundle id. -/
def officialCls : NexusBootstrapServer.Classification :=
  NexusBootstrapServer.classifyPeer { bundleId := some "com.nexus.mobile.v1" }

/-- Classification of a fork peer (brand token in the app name). -/
def semiCls : NexusBootstrapServer.Classification :=
  NexusBootstrapServer.classifyPeer { appName := some "Nexus Fork" }

/-- Peer record shorthand for the bootstrap-selection witness. -/
def c2Peer (id region : String) (c : NexusBootstrapServer.Classification) :
    NexusBootstrapServer.PeerRecord :=
  { nodeId := id, address := "a:1", clientIP := "ip", classification := c,
    metadata := NexusBootstrapServer.storeMetadata {}, registeredAt := 0, lastSeen := 0,
    heartbeats := 0, region := region }

/-- Registry of the spec's bootstrap-selection scenario: requester plus O1 and
O2 (official, region A), O3 (official, region B) and T1 (fork, region A). -/
def c2State : NexusBootstrapServer.ServerState :=
  { nexusEmpty with activePeers :=
      [("req", c2Peer "req" "regionA" officialCls),
       ("O1", c2Peer "O1" "regionA" officialCls),
       ("O2", c2Peer "O2" "regionA" officialCls),
       ("O3", c2Peer "O3" "regionB" officialCls),
       ("T1", c2Peer "T1" "regionA" semiCls)] }

/-! Arithmetic facts about hexadecimal digit strings, used to relate the
lexical comparator actually executed by the source to the numeric big-integer
ordering demanded by the spec. -/

theorem hexValN_lt_16 (n : Nat) : hexValN n < 16 := by
  unfold hexValN; split_ifs <;> omega

theorem hexVal_lt_16 (c : Char) : hexVal c < 16 := hexValN_lt_16 c.toNat

theorem hexValN_lt_iff {m n : Nat} (hm : IsLowerHexN m) (hn : IsLowerHexN n) :
    hexValN m < hexValN n ↔ m < n := by
  unfold IsLowerHexN at hm hn
  unfold hexValN
  split_ifs <;> omega

theorem hexNum_eq_valNum (s : List Char) : hexNum s = valNum (s.map hexVal) := by
  induction s with
  | nil => rfl
  | cons c cs ih => simp [hexNum, valNum, ih, List.length_map]

theorem valNum_lt (vs : List Nat) (h : ∀ v ∈ vs, v < 16) : valNum vs < 16 ^ vs.length := by
  induction vs with
  | nil => simp [valNum]
  | cons v vs ih =>
      have hv : v < 16 := h v (List.mem_cons_self v vs)
      have hvs : valNum vs < 16 ^ vs.length := ih (fun x hx => h x (List.mem_cons_of_mem v hx))
      have hv15 : v ≤ 15 := by omega
      calc v * 16 ^ vs.length + valNum vs
          < v * 16 ^ vs.length + 16 ^ vs.length := by omega
        _ = (v + 1) * 16 ^ vs.length := by ring
        _ ≤ 16 * 16 ^ vs.length := by
            exact Nat.mul_le_mul_right _ (by omega)
        _ = 16 ^ (vs.length + 1) := by ring
      -- the goal is valNum (v :: vs) < 16 ^ (v :: vs).length

theorem valNum_inj {xs ys : List Nat} (hlen : xs.length = ys.length)
    (hx : ∀ v ∈ xs, v < 16) (hy : ∀ v ∈ ys, v < 16)
    (h : valNum xs = valNum ys) : xs = ys := by
  induction xs generalizing ys with
  | nil => cases ys with
      | nil => rfl
      | cons b bs => simp at hlen
  | cons a as ih =>
      cases ys with
      | nil => simp at hlen
      | cons b bs =>
          have hlen2 : as.length = bs.length := by simpa using hlen
          have ha : a < 16 := hx a (List.mem_cons_self a as)
          have hb : b < 16 := hy b (List.mem_cons_self b bs)
          have has : ∀ v ∈ as, v < 16 := fun v hv => hx v (List.mem_cons_of_mem a hv)
          have hbs : ∀ v ∈ bs, v < 16 := fun v hv => hy v (List.mem_cons_of_mem b hv)
          have haslt : valNum as < 16 ^ as.length := valNum_lt as has
          have hbslt : valNum bs < 16 ^ bs.length := valNum_lt bs hbs
          have hpow : (16 : Nat) ^ as.length = 16 ^ bs.length := by rw [hlen2]
          have hnum : a * 16 ^ as.length + valNum as = b * 16 ^ as.length + valNum bs := by
            simpa [valNum, hpow] using h
          have hab : a = b := by
            rcases Nat.lt_trichotomy a b with hl | he | hg
            · exfalso
              have : a * 16 ^ as.length + valNum as < b * 16 ^ as.length + valNum bs := by
                calc a * 16 ^ as.length + valNum as
                    < a * 16 ^ as.length + 16 ^ as.length := by omega
                  _ = (a + 1) * 16 ^ as.length := by ring
                  _ ≤ b * 16 ^ as.length := Nat.mul_le_mul_right _ (by omega)
                  _ ≤ b * 16 ^ as.length + valNum bs := Nat.le_add_right _ _
              omega
            · exact he
            · exfalso
              have : b * 16 ^ as.length + valNum bs < a * 16 ^ as.length + valNum as := by
                calc b * 16 ^ as.length + valNum bs
                    < b * 16 ^ as.length + 16 ^ as.length := by
                      have := hbslt; rw [← hpow] at this; omega
                  _ = (b + 1) * 16 ^ as.length := by ring
                  _ ≤ a * 16 ^ as.length := Nat.mul_le_mul_right _ (by omega)
                  _ ≤ a * 16 ^ as.length + valNum as := Nat.le_add_right _ _
              omega
          subst hab
          have htail : valNum as = valNum bs := by omega
          rw [ih hlen2 has hbs htail]

theorem lexLe_total (s t : List Char) : (lexLe s t || lexLe t s) = true := by
  induction s generalizing t with
  | nil => simp [lexLe]
  | cons a as ih =>
      cases t with
      | nil => simp [lexLe]
      | cons b bs =>
          simp only [lexLe]
          rcases Nat.lt_trichotomy a.toNat b.toNat with h | h | h
          · simp [h]
          · have h1 : ¬ a.toNat < b.toNat := by omega
            have h2 : ¬ b.toNat < a.toNat := by omega
            simpa [h1, h2] using ih bs
          · simp [h, Nat.lt_asymm h]

theorem lexLe_trans (s t u : List Char) (h1 : lexLe s t = true) (h2 : lexLe t u = true) :
    lexLe s u = true := by
  induction s generalizing t u with
  | nil => simp [lexLe]
  | cons a as ih =>
      cases t with
      | nil => simp [lexLe] at h1
      | cons b bs =>
          cases u with
          | nil => simp [lexLe] at h2
          | cons c cs =>
              simp only [lexLe] at h1 h2 ⊢
              rcases Nat.lt_trichotomy a.toNat c.toNat with hac | hac | hac
              · simp [hac]
              · simp only [hac, Nat.lt_irrefl, if_false]
                rcases Nat.lt_trichotomy a.toNat b.toNat with hab | hab | hab
                · -- a < b, a = c, so c < b, contradiction with lexLe (b::) (c::)
                  have hcb : c.toNat < b.toNat := by omega
                  have : ¬ b.toNat < c.toNat := by omega
                  simp [this, hcb] at h2
                · have hbc : b.toNat = c.toNat := by omega
                  have h1x : lexLe as bs = true := by
                    simpa [hab, Nat.lt_irrefl] using h1
                  have h2x : lexLe bs cs = true := by
                    simpa [hbc, Nat.lt_irrefl] using h2
                  exact ih bs cs h1x h2x
                · have : ¬ a.toNat < b.toNat := by omega
                  simp [this, hab] at h1
              · -- c < a: derive a contradiction from h1 and h2
                exfalso
                rcases Nat.lt_trichotomy a.toNat b.toNat with hab | hab | hab
                · have hcb : c.toNat < b.toNat := by omega
                  have : ¬ b.toNat < c.toNat := by omega
                  simp [this, hcb] at h2
                · have hcb : c.toNat < b.toNat := by omega
                  have : ¬ b.toNat < c.toNat := by omega
                  simp [this, hcb] at h2
                · have : ¬ a.toNat < b.toNat := by omega
                  simp [this, hab] at h1

theorem hexVal_hexDigit {n : Nat} (h : n < 16) : hexVal (hexDigit n) = n := by
  interval_cases n <;> decide

theorem isLowerHex_hexDigit {n : Nat} (h : n < 16) : IsLowerHex (hexDigit n) := by
  interval_cases n <;> decide

theorem xor_lt_16 {a b : Nat} (ha : a < 16) (hb : b < 16) : a ^^^ b < 16 := by
  have h16 : (16 : Nat) = 2 ^ 4 := by norm_num
  rw [h16] at ha hb ⊢
  exact Nat.xor_lt_two_pow ha hb

theorem mem_zipWith {α β γ : Type} {f : α → β → γ} {l1 : List α} {l2 : List β} {c : γ}
    (h : c ∈ List.zipWith f l1 l2) : ∃ a ∈ l1, ∃ b ∈ l2, c = f a b := by
  induction l1 generalizing l2 with
  | nil => simp at h
  | cons a l1 ih =>
      cases l2 with
      | nil => simp at h
      | cons b l2 =>
          simp only [List.zipWith, List.mem_cons] at h
          rcases h with h | h
          · exact ⟨a, List.mem_cons_self a l1, b, List.mem_cons_self b l2, h⟩
          · rcases ih h with ⟨x, hx, y, hy, hxy⟩
            exact ⟨x, List.mem_cons_of_mem a hx, y, List.mem_cons_of_mem b hy, hxy⟩

theorem zipWith_xor_inj {ts xs ys : List Nat} (hx : xs.length = ts.length)
    (hy : ys.length = ts.length)
    (h : List.zipWith (· ^^^ ·) ts xs = List.zipWith (· ^^^ ·) ts ys) : xs = ys := by
  induction ts generalizing xs ys with
  | nil =>
      cases xs with
      | nil => cases ys with
          | nil => rfl
          | cons y ys => simp at hy
      | cons x xs => simp at hx
  | cons t ts ih =>
      cases xs with
      | nil => simp at hx
      | cons x xs =>
          cases ys with
          | nil => simp at hy
          | cons y ys =>
              simp only [List.zipWith, List.cons.injEq] at h
              have hxy : x = y := by
                have h1 : t ^^^ (t ^^^ x) = t ^^^ (t ^^^ y) := by rw [h.1]
                rwa [Nat.xor_cancel_left, Nat.xor_cancel_left] at h1
              have := ih (by simpa using hx) (by simpa using hy) h.2
              rw [hxy, this]

theorem lexLe_iff_hexNum_le {s t : List Char} (hlen : s.length = t.length)
    (hs : ∀ c ∈ s, IsLowerHex c) (ht : ∀ c ∈ t, IsLowerHex c) :
    lexLe s t = true ↔ hexNum s ≤ hexNum t := by
  induction s generalizing t with
  | nil =>
      cases t with
      | nil => simp [lexLe]
      | cons b bs => simp at hlen
  | cons a as ih =>
      cases t with
      | nil => simp at hlen
      | cons b bs =>
          have hlen2 : as.length = bs.length := by simpa using hlen
          have ha : IsLowerHex a := hs a (List.mem_cons_self a as)
          have hb : IsLowerHex b := ht b (List.mem_cons_self b bs)
          have has : ∀ c ∈ as, IsLowerHex c := fun c hc => hs c (List.mem_cons_of_mem a hc)
          have hbs : ∀ c ∈ bs, IsLowerHex c := fun c hc => ht c (List.mem_cons_of_mem b hc)
          have haslt : hexNum as < 16 ^ as.length := by
            rw [hexNum_eq_valNum]
            have := valNum_lt (as.map hexVal) (by
              intro v hv
              rcases List.mem_map.mp hv with ⟨c, _, rfl⟩
              exact hexVal_lt_16 c)
            simpa using this
          have hbslt : hexNum bs < 16 ^ bs.length := by
            rw [hexNum_eq_valNum]
            have := valNum_lt (bs.map hexVal) (by
              intro v hv
              rcases List.mem_map.mp hv with ⟨c, _, rfl⟩
              exact hexVal_lt_16 c)
            simpa using this
          have hpow : (16 : Nat) ^ as.length = 16 ^ bs.length := by rw [hlen2]
          simp only [lexLe, hexNum, ← hlen2, ← hpow]
          rcases Nat.lt_trichotomy a.toNat b.toNat with hab | hab | hab
          · have hv : hexVal a < hexVal b := (hexValN_lt_iff ha hb).mpr hab
            have : hexVal a * 16 ^ as.length + hexNum as
                < hexVal b * 16 ^ as.length + hexNum bs := by
              calc hexVal a * 16 ^ as.length + hexNum as
                  < hexVal a * 16 ^ as.length + 16 ^ as.length := by omega
                _ = (hexVal a + 1) * 16 ^ as.length := by ring
                _ ≤ hexVal b * 16 ^ as.length := Nat.mul_le_mul_right _ (by omega)
                _ ≤ hexVal b * 16 ^ as.length + hexNum bs := Nat.le_add_right _ _
            simp [hab, Nat.le_of_lt this]
          · have hv : hexVal a = hexVal b := by unfold hexVal; rw [hab]
            have h1 : ¬ a.toNat < b.toNat := by omega
            have h2 : ¬ b.toNat < a.toNat := by omega
            simp only [h1, if_false, h2, hv]
            rw [ih hlen2 has hbs]
            omega
          · have hv : hexVal b < hexVal a := (hexValN_lt_iff hb ha).mpr hab
            have : hexVal b * 16 ^ as.length + hexNum bs
                < hexVal a * 16 ^ as.length + hexNum as := by
              calc hexVal b * 16 ^ as.length + hexNum bs
                  < hexVal b * 16 ^ as.length + 16 ^ as.length := by
                    have hbslt2 : hexNum bs < 16 ^ as.length := by rw [hpow]; exact hbslt
                    omega
                _ = (hexVal b + 1) * 16 ^ as.length := by ring
                _ ≤ hexVal a * 16 ^ as.length := Nat.mul_le_mul_right _ (by omega)
                _ ≤ hexVal a * 16 ^ as.length + hexNum as := Nat.le_add_right _ _
            have h1 : ¬ a.toNat < b.toNat := by omega
            simp [h1, hab]
            omega

theorem xorDistance_data (h1 h2 : String) :
    (DHTNode.xorDistance h1 h2).data
      = List.zipWith (fun a b => hexDigit (hexVal a ^^^ hexVal b)) h1.data h2.data := rfl

theorem xorDistance_length {h1 h2 : String} (l1 : h1.data.length = 64)
    (l2 : h2.data.length = 64) : (DHTNode.xorDistance h1 h2).data.length = 64 := by
  rw [xorDistance_data, List.length_zipWith, l1, l2]
  rfl

theorem xorDistance_hex (h1 h2 : String) : ∀ c ∈ (DHTNode.xorDistance h1 h2).data, IsLowerHex c := by
  intro c hc
  rw [xorDistance_data] at hc
  rcases mem_zipWith hc with ⟨a, -, b, -, rfl⟩
  exact isLowerHex_hexDigit (xor_lt_16 (hexVal_lt_16 a) (hexVal_lt_16 b))

theorem map_hexVal_xorDistance (h1 h2 : String) :
    (DHTNode.xorDistance h1 h2).data.map hexVal
      = List.zipWith (fun a b => hexVal a ^^^ hexVal b) h1.data h2.data := by
  rw [xorDistance_data, List.map_zipWith]
  congr 1
  funext a b
  exact hexVal_hexDigit (xor_lt_16 (hexVal_lt_16 a) (hexVal_lt_16 b))

/-- C1, amended: for any digest function producing 64-character lowercase hex
digests (as SHA-256 hex digests are), findClosestPeers(target, k) returns
min k n of the n registered peers, drawn from the routing table, all of them
when at most k exist, ordered by non-decreasing numeric XOR distance of their
hashed identity keys to the hashed target (the XOR digest read as an unsigned
big integer); the order is strictly increasing whenever the registered peers'
hashed keys are pairwise distinct numbers. The lexical localeCompare executed
by the source agrees with numeric comparison here because all the distance
digests have equal length and lowercase hex digits. -/
theorem c1_findClosestPeers_ordered (hashAddress : String → String)
    (routingTable : List DHTNode.Peer) (target : String) (k : Nat)
    (hlen : ∀ s, (hashAddress s).data.length = 64)
    (_hhex : ∀ s, ∀ c ∈ (hashAddress s).data, IsLowerHex c) :
    (DHTNode.findClosestPeers hashAddress routingTable target k).length
        = min k routingTable.length
    ∧ (∀ p ∈ DHTNode.findClosestPeers hashAddress routingTable target k, p ∈ routingTable)
    ∧ (routingTable.length ≤ k →
        (DHTNode.findClosestPeers hashAddress routingTable target k).Perm routingTable)
    ∧ List.Sorted (· ≤ ·)
        ((DHTNode.findClosestPeers hashAddress routingTable target k).map (fun p =>
          hexNum (DHTNode.xorDistance (hashAddress target) (hashAddress p.walletAddress)).data))
    ∧ ((routingTable.map (fun p => hexNum (hashAddress p.walletAddress).data)).Nodup →
        List.Sorted (· < ·)
          ((DHTNode.findClosestPeers hashAddress routingTable target k).map (fun p =>
            hexNum (DHTNode.xorDistance (hashAddress target) (hashAddress p.walletAddress)).data))) := by
  classical
  set th := hashAddress target with hth
  set distOf := fun p : DHTNode.Peer => DHTNode.xorDistance th (hashAddress p.walletAddress)
    with hdistOf
  set dn := fun p : DHTNode.Peer => hexNum (distOf p).data with hdn
  set pairs := routingTable.map (fun p => (p, distOf p)) with hpairs
  set cmp := fun a b : DHTNode.Peer × String => lexLe a.2.data b.2.data with hcmp
  set sorted := pairs.mergeSort cmp with hsortedDef
  have hres : DHTNode.findClosestPeers hashAddress routingTable target k
      = (sorted.take k).map (fun item => item.1) := rfl
  have hperm : sorted.Perm pairs := List.mergeSort_perm pairs cmp
  have hsortpw : sorted.Pairwise (fun a b => cmp a b = true) :=
    List.sorted_mergeSort
      (fun a b c hab hbc => lexLe_trans a.2.data b.2.data c.2.data hab hbc)
      (fun a b => lexLe_total a.2.data b.2.data) pairs
  have hsnd : ∀ x ∈ sorted, x.2 = distOf x.1 := by
    intro x hx
    rcases List.mem_map.mp (hperm.mem_iff.mp hx) with ⟨p, _, rfl⟩
    rfl
  have hfst : ∀ x ∈ sorted, x.1 ∈ routingTable := by
    intro x hx
    rcases List.mem_map.mp (hperm.mem_iff.mp hx) with ⟨p, hp, rfl⟩
    exact hp
  have hdistlen : ∀ p : DHTNode.Peer, (distOf p).data.length = 64 := by
    intro p
    exact xorDistance_length (hlen target) (hlen p.walletAddress)
  have hdisthex : ∀ p : DHTNode.Peer, ∀ c ∈ (distOf p).data, IsLowerHex c := by
    intro p
    exact xorDistance_hex th (hashAddress p.walletAddress)
  -- length
  have part1 : ((sorted.take k).map (fun item : DHTNode.Peer × String => item.1)).length
      = min k routingTable.length := by
    rw [List.length_map, List.length_take, hperm.length_eq, hpairs, List.length_map]
  -- membership
  have part2 : ∀ p ∈ (sorted.take k).map (fun item : DHTNode.Peer × String => item.1),
      p ∈ routingTable := by
    intro p hp
    rcases List.mem_map.mp hp with ⟨x, hx, rfl⟩
    exact hfst x ((List.take_sublist k sorted).subset hx)
  -- whole table when it is small
  have part3 : routingTable.length ≤ k →
      ((sorted.take k).map (fun item : DHTNode.Peer × String => item.1)).Perm routingTable := by
    intro hk
    have hslen : sorted.length ≤ k := by
      rw [hperm.length_eq, hpairs, List.length_map]; exact hk
    rw [List.take_of_length_le hslen]
    have hmapped : (sorted.map (fun item : DHTNode.Peer × String => item.1)).Perm
        (pairs.map (fun item : DHTNode.Peer × String => item.1)) := hperm.map _
    have hid : pairs.map (fun item : DHTNode.Peer × String => item.1) = routingTable := by
      rw [hpairs, List.map_map]
      exact List.map_id routingTable
    rwa [hid] at hmapped
  -- sortedness with respect to the numeric distance
  have htakepw : (sorted.take k).Pairwise (fun a b => cmp a b = true) :=
    List.Pairwise.sublist (List.take_sublist k sorted) hsortpw
  have part4 : List.Sorted (· ≤ ·)
      (((sorted.take k).map (fun item : DHTNode.Peer × String => item.1)).map dn) := by
    rw [List.map_map]
    unfold List.Sorted
    rw [List.pairwise_map]
    refine List.Pairwise.imp_of_mem ?_ htakepw
    intro a b ha hb hab
    have ha2 := hsnd a ((List.take_sublist k sorted).subset ha)
    have hb2 := hsnd b ((List.take_sublist k sorted).subset hb)
    have hlab : a.2.data.length = b.2.data.length := by
      rw [ha2, hb2, hdistlen, hdistlen]
    have hhexa : ∀ c ∈ a.2.data, IsLowerHex c := by rw [ha2]; exact hdisthex a.1
    have hhexb : ∀ c ∈ b.2.data, IsLowerHex c := by rw [hb2]; exact hdisthex b.1
    have := (lexLe_iff_hexNum_le hlab hhexa hhexb).mp hab
    show dn a.1 ≤ dn b.1
    rw [hdn]
    simp only
    rw [← ha2, ← hb2]
    exact this
  -- strict sortedness under pairwise-distinct hashed keys
  have part5 : (routingTable.map (fun p => hexNum (hashAddress p.walletAddress).data)).Nodup →
      List.Sorted (· < ·)
        (((sorted.take k).map (fun item : DHTNode.Peer × String => item.1)).map dn) := by
    intro hnd
    apply List.Sorted.lt_of_le part4
    rw [List.map_map]
    -- reduce nodup of the output distances to nodup of the table distances
    have hsub : (((sorted.take k).map (fun x : DHTNode.Peer × String => dn x.1))).Sublist
        (sorted.map (fun x : DHTNode.Peer × String => dn x.1)) :=
      List.Sublist.map _ (List.take_sublist k sorted)
    have hpermmap : (sorted.map (fun x : DHTNode.Peer × String => dn x.1)).Perm
        (pairs.map (fun x : DHTNode.Peer × String => dn x.1)) := hperm.map _
    have hpairsmap : pairs.map (fun x : DHTNode.Peer × String => dn x.1)
        = routingTable.map dn := by
      rw [hpairs, List.map_map]; rfl
    have key : ∀ p q : DHTNode.Peer, dn p = dn q →
        hexNum (hashAddress p.walletAddress).data = hexNum (hashAddress q.walletAddress).data := by
      intro p q hpq
      have hvp := map_hexVal_xorDistance th (hashAddress p.walletAddress)
      have hvq := map_hexVal_xorDistance th (hashAddress q.walletAddress)
      have hzip : ∀ s : String, List.zipWith (fun a b => hexVal a ^^^ hexVal b) th.data s.data
          = List.zipWith (· ^^^ ·) (th.data.map hexVal) (s.data.map hexVal) := by
        intro s
        rw [List.zipWith_map]
      have hvaleq : valNum (List.zipWith (· ^^^ ·) (th.data.map hexVal)
            ((hashAddress p.walletAddress).data.map hexVal))
          = valNum (List.zipWith (· ^^^ ·) (th.data.map hexVal)
            ((hashAddress q.walletAddress).data.map hexVal)) := by
        have h1 : dn p = valNum (List.zipWith (· ^^^ ·) (th.data.map hexVal)
            ((hashAddress p.walletAddress).data.map hexVal)) := by
          rw [hdn]; simp only; rw [hexNum_eq_valNum, hdistOf]; simp only
          rw [hvp, hzip]
        have h2 : dn q = valNum (List.zipWith (· ^^^ ·) (th.data.map hexVal)
            ((hashAddress q.walletAddress).data.map hexVal)) := by
          rw [hdn]; simp only; rw [hexNum_eq_valNum, hdistOf]; simp only
          rw [hvq, hzip]
        rw [← h1, ← h2, hpq]
      have hboundp : ∀ v ∈ List.zipWith (· ^^^ ·) (th.data.map hexVal)
          ((hashAddress p.walletAddress).data.map hexVal), v < 16 := by
        intro v hv
        rcases mem_zipWith hv with ⟨a, hma, b, hmb, rfl⟩
        rcases List.mem_map.mp hma with ⟨c, -, rfl⟩
        rcases List.mem_map.mp hmb with ⟨d, -, rfl⟩
        exact xor_lt_16 (hexVal_lt_16 c) (hexVal_lt_16 d)
      have hboundq : ∀ v ∈ List.zipWith (· ^^^ ·) (th.data.map hexVal)
          ((hashAddress q.walletAddress).data.map hexVal), v < 16 := by
        intro v hv
        rcases mem_zipWith hv with ⟨a, hma, b, hmb, rfl⟩
        rcases List.mem_map.mp hma with ⟨c, -, rfl⟩
        rcases List.mem_map.mp hmb with ⟨d, -, rfl⟩
        exact xor_lt_16 (hexVal_lt_16 c) (hexVal_lt_16 d)
      have hlenzip : ∀ s : String, (List.zipWith (· ^^^ ·) (th.data.map hexVal)
          (s.data.map hexVal)).length = min 64 (s.data.length) := by
        intro s
        rw [List.length_zipWith, List.length_map, List.length_map, hth, hlen]
      have hzipeq := valNum_inj (by rw [hlenzip, hlenzip, hlen, hlen]) hboundp hboundq hvaleq
      have hmaps : (hashAddress p.walletAddress).data.map hexVal
          = (hashAddress q.walletAddress).data.map hexVal := by
        refine zipWith_xor_inj ?_ ?_ hzipeq
        · rw [List.length_map, List.length_map, hlen, hth, hlen]
        · rw [List.length_map, List.length_map, hlen, hth, hlen]
      rw [hexNum_eq_valNum, hexNum_eq_valNum, hmaps]
    have hmapnd : (routingTable.map dn).Nodup := by
      have h1 : routingTable.Pairwise (fun p q =>
          hexNum (hashAddress p.walletAddress).data
            ≠ hexNum (hashAddress q.walletAddress).data) := List.pairwise_map.mp hnd
      refine List.pairwise_map.mpr (List.Pairwise.imp ?_ h1)
      intro p q hne he
      exact hne (key p q he)
    have hsortednd : (sorted.map (fun x : DHTNode.Peer × String => dn x.1)).Nodup := by
      rw [hpermmap.nodup_iff, hpairsmap]
      exact hmapnd
    exact List.Nodup.sublist hsub hsortednd
  rw [hres]
  exact ⟨part1, part2, part3, part4, part5⟩

theorem testDigest_len : ∀ s, (testDigest s).data.length = 64 := by
  intro s
  unfold testDigest
  split <;> simp

theorem testDigest_hex : ∀ s, ∀ c ∈ (testDigest s).data, IsLowerHex c := by
  intro s c hc
  unfold testDigest at hc
  split at hc <;> · rw [List.eq_of_mem_replicate hc]; decide

/-- Witness for c1_findClosestPeers_ordered at a concrete digest function and
routing table. -/
theorem c1_findClosestPeers_ordered_witness :
    (DHTNode.findClosestPeers testDigest testTable "alice" 20).length = min 20 testTable.length
    ∧ List.Sorted (· < ·)
        ((DHTNode.findClosestPeers testDigest testTable "alice" 20).map (fun p =>
          hexNum (DHTNode.xorDistance (testDigest "alice") (testDigest p.walletAddress)).data)) := by
  have h := c1_findClosestPeers_ordered testDigest testTable "alice" 20 testDigest_len testDigest_hex
  exact ⟨h.1, h.2.2.2.2 (by decide)⟩

/-- Helper: when the routing table has at most k peers, findClosestPeers
returns a permutation of the whole table. -/
theorem findClosestPeers_perm_of_le (hashAddress : String → String)
    (table : List DHTNode.Peer) (target : String) (k : Nat) (hk : table.length ≤ k) :
    (DHTNode.findClosestPeers hashAddress table target k).Perm table := by
  unfold DHTNode.findClosestPeers
  simp only
  set pairs := table.map (fun p =>
    (p, DHTNode.xorDistance (hashAddress target) (hashAddress p.walletAddress))) with hpairs
  set cmp := fun a b : DHTNode.Peer × String => lexLe a.2.data b.2.data with hcmp
  have hperm : (pairs.mergeSort cmp).Perm pairs := List.mergeSort_perm pairs cmp
  have hlenle : (pairs.mergeSort cmp).length ≤ k := by
    rw [hperm.length_eq, hpairs, List.length_map]; exact hk
  rw [List.take_of_length_le hlenle]
  have hmapped := hperm.map (fun item : DHTNode.Peer × String => item.1)
  have hid : pairs.map (fun item : DHTNode.Peer × String => item.1) = table := by
    rw [hpairs, List.map_map]
    exact List.map_id table
  rwa [hid] at hmapped

/-- C1 counterexample to the claim as stated: two distinct registered peers may
share one identity key (registration never forbids it), any digest function
then assigns them equal digests — SHA-256 included — and both XOR distances to
the target coincide, so the output of findClosestPeers is not ordered by
strictly increasing numeric XOR distance. -/
theorem c1_strict_counterexample :
    (cexTable.map (fun p => p.id)).Nodup
    ∧ ¬ List.Sorted (· < ·)
        ((DHTNode.findClosestPeers testDigest cexTable "w" 20).map (fun p =>
          hexNum (DHTNode.xorDistance (testDigest "w") (testDigest p.walletAddress)).data)) := by
  refine ⟨by decide, ?_⟩
  intro hs
  have hperm := findClosestPeers_perm_of_le testDigest cexTable "w" 20 (by decide)
  have hmem : ∀ p ∈ DHTNode.findClosestPeers testDigest cexTable "w" 20,
      hexNum (DHTNode.xorDistance (testDigest "w") (testDigest p.walletAddress)).data = 0 := by
    intro p hp
    have hpc : p ∈ cexTable := hperm.mem_iff.mp hp
    have hw : p.walletAddress = "w" := by
      simp only [cexTable, List.mem_cons, List.not_mem_nil, or_false] at hpc
      rcases hpc with rfl | rfl <;> rfl
    rw [hw]
    decide
  have hlen2 : (DHTNode.findClosestPeers testDigest cexTable "w" 20).length = 2 :=
    hperm.length_eq
  rcases hres : DHTNode.findClosestPeers testDigest cexTable "w" 20 with - | ⟨a, - | ⟨b, t⟩⟩
  · rw [hres] at hlen2; simp at hlen2
  · rw [hres] at hlen2; simp at hlen2
  · have ha := hmem a (by rw [hres]; exact List.mem_cons_self a (b :: t))
    have hb := hmem b (by rw [hres]; exact List.mem_cons_of_mem a (List.mem_cons_self b t))
    rw [hres] at hs
    simp only [List.map_cons, List.sorted_cons, List.mem_cons] at hs
    have := hs.1 (hexNum (DHTNode.xorDistance (testDigest "w") (testDigest b.walletAddress)).data)
      (Or.inl rfl)
    rw [ha, hb] at this
    exact Nat.lt_irrefl 0 this

/-! Lemmas about the JavaScript Map model. -/

theorem mapGet_mapSet_self {α : Type} (m : List (String × α)) (k : String) (v : α) :
    mapGet (mapSet m k v) k = some v := by
  induction m with
  | nil => simp [mapSet, mapGet]
  | cons kv t ih =>
      by_cases h : kv.1 = k
      · simp [mapSet, mapGet, h]
      · have hbeq : (kv.1 == k) = false := by simp [h]
        by_cases ht : t.any (fun kv2 => kv2.1 == k)
        · have h1 : mapSet t k v = t.map (fun kv2 => if kv2.1 == k then (k, v) else kv2) := by
            simp [mapSet, ht]
          have h2 : mapSet (kv :: t) k v
              = kv :: t.map (fun kv2 => if kv2.1 == k then (k, v) else kv2) := by
            simp [mapSet, List.any_cons, hbeq, ht, h]
          rw [h2, mapGet, List.find?_cons_of_neg _ (by simp [hbeq]), ← h1, ← mapGet, ih]
        · have h2 : mapSet (kv :: t) k v = kv :: (t ++ [(k, v)]) := by
            simp [mapSet, List.any_cons, hbeq, ht]
          have h1 : mapSet t k v = t ++ [(k, v)] := by
            simp [mapSet, ht]
          rw [h2, mapGet, List.find?_cons_of_neg _ (by simp [hbeq]), ← h1, ← mapGet, ih]

theorem mapGet_unique {α : Type} {m : List (String × α)}
    (hn : (m.map (fun kv => kv.1)).Nodup) {k : String} {p : α}
    (hget : mapGet m k = some p) : ∀ kv ∈ m, kv.1 = k → kv = (k, p) := by
  induction m with
  | nil => intro kv hkv; simp at hkv
  | cons hd t ih =>
      intro kv hkv hkey
      rcases List.mem_cons.mp hkv with rfl | hkvt
      · -- kv is the head
        have : mapGet (kv :: t) k = some kv.2 := by
          simp [mapGet, List.find?_cons_of_pos, hkey]
        rw [this] at hget
        cases hget
        rw [← hkey]
      · -- kv is in the tail
        by_cases hhd : hd.1 = k
        · exfalso
          have hk1 : kv.1 ∈ t.map (fun kv2 => kv2.1) := List.mem_map_of_mem _ hkvt
          have : hd.1 ∉ t.map (fun kv2 => kv2.1) := (List.nodup_cons.mp hn).1
          rw [hhd] at this
          rw [hkey] at hk1
          exact this hk1
        · have hbeq : (hd.1 == k) = false := by simp [hhd]
          have hget2 : mapGet t k = some p := by
            rw [mapGet, List.find?_cons_of_neg _ (by simp [hbeq])] at hget
            exact hget
          exact ih (List.nodup_cons.mp hn).2 hget2 kv hkvt hkey

theorem find?_filter_key {α : Type} (m : List (String × α)) (keep : String × α → Bool)
    (k : String) (h : ∀ kv ∈ m, kv.1 = k → keep kv = true) :
    (m.filter keep).find? (fun kv => kv.1 == k) = m.find? (fun kv => kv.1 == k) := by
  induction m with
  | nil => simp
  | cons hd t ih =>
      by_cases hkeep : keep hd = true
      · rw [List.filter_cons_of_pos hkeep]
        by_cases hkey : hd.1 = k
        · rw [List.find?_cons_of_pos _ (by simp [hkey]), List.find?_cons_of_pos _ (by simp [hkey])]
        · rw [List.find?_cons_of_neg _ (by simp [hkey]), List.find?_cons_of_neg _ (by simp [hkey])]
          exact ih (fun kv hkv => h kv (List.mem_cons_of_mem hd hkv))
      · rw [List.filter_cons_of_neg (by simpa using hkeep)]
        have hkey : ¬ hd.1 = k := fun hk => hkeep (h hd (List.mem_cons_self hd t) hk)
        rw [List.find?_cons_of_neg _ (by simp [hkey])]
        exact ih (fun kv hkv => h kv (List.mem_cons_of_mem hd hkv))

theorem mapGet_filter_of_keep {α : Type} (m : List (String × α)) (keep : String × α → Bool)
    (k : String) (h : ∀ kv ∈ m, kv.1 = k → keep kv = true) :
    mapGet (m.filter keep) k = mapGet m k := by
  rw [mapGet, mapGet, find?_filter_key m keep k h]

theorem mapGet_filter_of_drop {α : Type} (m : List (String × α)) (keep : String × α → Bool)
    (k : String) (h : ∀ kv ∈ m, kv.1 = k → keep kv = false) :
    mapGet (m.filter keep) k = none := by
  rw [mapGet]
  have : (m.filter keep).find? (fun kv => kv.1 == k) = none := by
    rw [List.find?_eq_none]
    intro kv hkv
    have hm := List.mem_filter.mp hkv
    intro hbeq
    have hk : kv.1 = k := by simpa using hbeq
    rw [h kv hm.1 hk] at hm
    exact Bool.false_ne_true hm.2
  rw [this]

/-- C4: relaySignalingMessage fails with the target-not-found report when the
target peer id has no record (delivering nothing), fails with the
connection-not-ready report when the record's transport is not open, and on
success forwards exactly the action, fromPeerId, payload and timestamp tuple
to the target's transport handle. -/
theorem c4_relay_semantics (peers : List (String × Signaling.PeerEntry))
    (action toPeerId fromPeerId payload : String) (now : Nat) :
    (mapGet peers toPeerId = none →
      Signaling.relaySignalingMessage peers action toPeerId fromPeerId payload now
        = Signaling.RelayOutcome.targetNotFound toPeerId)
    ∧ (∀ p, mapGet peers toPeerId = some p → p.ws.readyState ≠ Signaling.OPEN →
        Signaling.relaySignalingMessage peers action toPeerId fromPeerId payload now
          = Signaling.RelayOutcome.targetUnreachable toPeerId)
    ∧ (∀ p, mapGet peers toPeerId = some p → p.ws.readyState = Signaling.OPEN →
        Signaling.relaySignalingMessage peers action toPeerId fromPeerId payload now
          = Signaling.RelayOutcome.delivered p.ws
              { action := action, fromPeerId := fromPeerId,
                payload := payload, timestamp := now }) := by
  refine ⟨?_, ?_, ?_⟩
  · intro hnone
    simp [Signaling.relaySignalingMessage, hnone]
  · intro p hsome hstate
    simp [Signaling.relaySignalingMessage, hsome, hstate]
  · intro p hsome hstate
    simp [Signaling.relaySignalingMessage, hsome, hstate]

/-- Witness for c4_relay_semantics: a concrete successful delivery. -/
theorem c4_relay_semantics_witness :
    Signaling.relaySignalingMessage relayPeers "offer" "bob" "alice" "sdp" 42
      = Signaling.RelayOutcome.delivered { wsId := 7, readyState := 1 }
          { action := "offer", fromPeerId := "alice", payload := "sdp", timestamp := 42 } := by
  exact (c4_relay_semantics relayPeers "offer" "bob" "alice" "sdp" 42).2.2
    { ws := { wsId := 7, readyState := 1 }, lastSeen := 0, nodeInfo := "", address := "10.0.0.9" }
    (by decide) (by decide)

/-- C10: a registration missing a required field fails validation before any
mutation: the NexusBootstrapServer variant requires peerId and address and
throws with the whole state (peers map, region index, counters) unchanged, and
the server.js announce route requires peerId and replies 400 with the state
unchanged. -/
theorem c10_validation_unchanged :
    (∀ (st : NexusBootstrapServer.ServerState) (pd : NexusBootstrapServer.PeerData)
        (ip : String) (now : Nat), pd.peerId = "" ∨ pd.address = "" →
        NexusBootstrapServer.handlePeerRegistration st pd ip now
          = (Except.error "Missing required fields: peerId, address", st))
    ∧ (∀ (st : PeerManager.State) (address : Option String) (port : Option Nat)
        (caps : Option (List String)) (ip : String) (now : Nat),
        PeerManager.announceRoute st "" address port caps ip now
          = (Except.error "peerId is required", st)) := by
  constructor
  · intro st pd ip now h
    unfold NexusBootstrapServer.handlePeerRegistration
    rw [if_pos h]
  · intro st address port caps ip now
    unfold PeerManager.announceRoute
    rw [if_pos rfl]

/-- Witness for c10_validation_unchanged: a concrete request without a peerId
leaves the empty state unchanged. -/
theorem c10_validation_unchanged_witness :
    NexusBootstrapServer.handlePeerRegistration nexusEmpty
        { peerId := "", address := "1.2.3.4", port := none, metadata := {} } "9.9.9.9" 0
      = (Except.error "Missing required fields: peerId, address", nexusEmpty) :=
  c10_validation_unchanged.1 nexusEmpty
    { peerId := "", address := "1.2.3.4", port := none, metadata := {} } "9.9.9.9" 0 (Or.inl rfl)

/-- Helper: a valid registration stores exactly the record built from its own
request, independently of the previous state. -/
theorem handleReg_get_self (st : NexusBootstrapServer.ServerState)
    (pd : NexusBootstrapServer.PeerData) (ip : String) (t : Nat)
    (h1 : pd.peerId ≠ "") (h2 : pd.address ≠ "") :
    mapGet (NexusBootstrapServer.handlePeerRegistration st pd ip t).2.activePeers pd.peerId
      = some (NexusBootstrapServer.mkPeerRecord pd ip t) := by
  unfold NexusBootstrapServer.handlePeerRegistration
  rw [if_neg (by intro h; rcases h with h | h; exact h1 h; exact h2 h)]
  exact mapGet_mapSet_self _ _ _

/-- C6: registering the same id twice fully replaces the record: the stored
record after register(id, A) then register(id, B) is exactly the record built
from B (no field of A survives), in both the NexusBootstrapServer variant and
the server.js PeerManager.addPeer variant. -/
theorem c6_register_replaces (st : NexusBootstrapServer.ServerState)
    (a b : NexusBootstrapServer.PeerData) (ip1 ip2 : String) (t1 t2 : Nat)
    (hid : a.peerId = b.peerId) (h1 : b.peerId ≠ "") (h2 : b.address ≠ "")
    (stm : PeerManager.State) (idm : String) (pa pb : PeerManager.PeerInput) (u1 u2 : Nat) :
    mapGet (NexusBootstrapServer.handlePeerRegistration
        (NexusBootstrapServer.handlePeerRegistration st a ip1 t1).2 b ip2 t2).2.activePeers
        b.peerId
      = some (NexusBootstrapServer.mkPeerRecord b ip2 t2)
    ∧ mapGet (PeerManager.addPeer ((PeerManager.addPeer stm idm pa u1).1) idm pb u2).1.peers idm
      = some { id := idm, address := pb.address, port := pb.port,
               capabilities := pb.capabilities, lastSeen := u2, joined := u2 } := by
  constructor
  · exact handleReg_get_self _ b ip2 t2 h1 h2
  · exact mapGet_mapSet_self _ _ _

/-- Witness for c6_register_replaces: after two concrete registrations of the
same id the stored record is exactly the second one. -/
theorem c6_register_replaces_witness :
    mapGet (NexusBootstrapServer.handlePeerRegistration
        (NexusBootstrapServer.handlePeerRegistration nexusEmpty
          { peerId := "p", address := "1.1.1.1", port := some 1, metadata := {} } "8.8.8.8" 0).2
        { peerId := "p", address := "2.2.2.2", port := some 2, metadata := {} } "9.9.9.9" 7).2.activePeers
        "p"
      = some (NexusBootstrapServer.mkPeerRecord
          { peerId := "p", address := "2.2.2.2", port := some 2, metadata := {} } "9.9.9.9" 7) :=
  (c6_register_replaces nexusEmpty
    { peerId := "p", address := "1.1.1.1", port := some 1, metadata := {} }
    { peerId := "p", address := "2.2.2.2", port := some 2, metadata := {} }
    "8.8.8.8" "9.9.9.9" 0 7 rfl (by decide) (by decide)
    { peers := [], connections := [] } "q" { address := "", port := 0, capabilities := [] }
    { address := "", port := 0, capabilities := [] } 0 0).1

/-- C3, amended: in the NexusBootstrapServer variant heartbeat returns whether
the peer existed — an existing id gets lastSeen set to now and its heartbeat
counter incremented, a missing id gets a 404 not-found with the registry
unchanged and no record created. In the server.js variant a heartbeat on a
missing id also mutates nothing and creates nothing, but it replies success
rather than not-found. -/
theorem c3_heartbeat_amended :
    (∀ (st : NexusBootstrapServer.ServerState) (id : String) (now : Nat)
        (p : NexusBootstrapServer.PeerRecord),
        id ≠ "" → mapGet st.activePeers id = some p →
        NexusBootstrapServer.heartbeatRoute st id now
          = (NexusBootstrapServer.HeartbeatOutcome.ok (now + 120000),
             { st with
                activePeers :=
                  mapSet st.activePeers id
                    { p with lastSeen := now, heartbeats := p.heartbeats + 1 } }))
    ∧ (∀ (st : NexusBootstrapServer.ServerState) (id : String) (now : Nat),
        mapGet st.activePeers id = none →
        NexusBootstrapServer.heartbeatRoute st id now
          = (NexusBootstrapServer.HeartbeatOutcome.notFound, st))
    ∧ (∀ (st : PeerManager.State) (id : String) (now : Nat),
        mapGet st.peers id = none → (PeerManager.heartbeatRoute st id now).2 = st) := by
  refine ⟨?_, ?_, ?_⟩
  · intro st id now p hid hget
    simp [NexusBootstrapServer.heartbeatRoute, hget, hid]
  · intro st id now hget
    simp [NexusBootstrapServer.heartbeatRoute, hget]
  · intro st id now hget
    by_cases hid : id = ""
    · simp [PeerManager.heartbeatRoute, hid]
    · simp [PeerManager.heartbeatRoute, hid, PeerManager.updatePeerActivity, hget]

/-- Witness for c3_heartbeat_amended: concrete states for all three parts. -/
theorem c3_heartbeat_amended_witness :
    NexusBootstrapServer.heartbeatRoute nexusEmpty "p1" 5
      = (NexusBootstrapServer.HeartbeatOutcome.notFound, nexusEmpty)
    ∧ (PeerManager.heartbeatRoute pmEmpty "p1" 5).2 = pmEmpty :=
  ⟨(c3_heartbeat_amended.2.1 nexusEmpty "p1" 5 rfl),
   (c3_heartbeat_amended.2.2 pmEmpty "p1" 5 rfl)⟩

/-- C3 counterexample to the claim as stated: the server.js heartbeat route
replies 200 success for a peer id that has no record, not a not-found result
(it still creates nothing). -/
theorem c3_heartbeat_counterexample :
    mapGet pmEmpty.peers "p1" = none
    ∧ (PeerManager.heartbeatRoute pmEmpty "p1" 5).1
        = { status := 200, success := true } := by
  constructor
  · rfl
  · decide

/-- C8, amended: detectRegion is a pure deterministic function of the address
string; an address starting with 192.168. or equal to the literal 127.0.0.1
maps to the fixed local tag, and every other address — including the remaining
private-range and loopback addresses — maps to the fixed region tag selected
by the stable simpleHash of the address modulo the tag-set size. -/
theorem c8_detectRegion_amended (addr : String) :
    ((leadsChars "192.168.".data addr.data = true ∨ addr = "127.0.0.1") →
      NexusBootstrapServer.detectRegion addr = "local")
    ∧ (¬ (leadsChars "192.168.".data addr.data = true ∨ addr = "127.0.0.1") →
        NexusBootstrapServer.detectRegion addr
            = NexusBootstrapServer.regions.getD
                (NexusBootstrapServer.simpleHash addr % NexusBootstrapServer.regions.length) ""
          ∧ NexusBootstrapServer.detectRegion addr ∈ NexusBootstrapServer.regions) := by
  constructor
  · intro h
    have hb : (leadsChars "192.168.".data addr.data || addr == "127.0.0.1") = true := by
      rcases h with h | h
      · simp [h]
      · simp [h]
    simp [NexusBootstrapServer.detectRegion, hb]
  · intro h
    have hb : ¬ ((leadsChars "192.168.".data addr.data || addr == "127.0.0.1") = true) := by
      simpa using h
    have hres : NexusBootstrapServer.detectRegion addr
        = NexusBootstrapServer.regions.getD
            (NexusBootstrapServer.simpleHash addr % NexusBootstrapServer.regions.length) "" := by
      unfold NexusBootstrapServer.detectRegion
      rw [if_neg hb]
    refine ⟨hres, ?_⟩
    rw [hres]
    have hlt : NexusBootstrapServer.simpleHash addr % NexusBootstrapServer.regions.length
        < NexusBootstrapServer.regions.length := Nat.mod_lt _ (by decide)
    rw [List.getD_eq_getElem _ _ hlt]
    exact List.getElem_mem hlt

/-- Witness for c8_detectRegion_amended: the loopback literal is local, and a
public address lands in the fixed tag set. -/
theorem c8_detectRegion_amended_witness :
    NexusBootstrapServer.detectRegion "127.0.0.1" = "local"
    ∧ NexusBootstrapServer.detectRegion "8.8.8.8" ∈ NexusBootstrapServer.regions :=
  ⟨(c8_detectRegion_amended "127.0.0.1").1 (Or.inr rfl),
   ((c8_detectRegion_amended "8.8.8.8").2 (by decide)).2⟩

set_option maxRecDepth 4096 in
/-- C8 counterexample to the claim as stated: 10.0.0.1 is a private-range
address, yet detectRegion does not map it to the local tag — only the
192.168. block and the single literal 127.0.0.1 are special-cased. -/
theorem c8_private_range_counterexample :
    NexusBootstrapServer.detectRegion "10.0.0.1" ≠ "local" := by decide

/-- C9: classifyPeer applies its rules in order with first match winning — an
allow-listed bundleId yields official and trusted, otherwise an appName whose
lowercase form contains the brand token yields fork and semi-trusted,
otherwise custom and untrusted; and each missing metadata field among appName,
appVersion, bundleId and userAgent is reported as the literal Unknown. -/
theorem c9_classifyPeer_first_match (m : NexusBootstrapServer.Metadata) :
    ((∃ b, m.bundleId = some b ∧ b ∈ NexusBootstrapServer.officialBundleIds) →
      (NexusBootstrapServer.classifyPeer m).appVariant = "official"
      ∧ (NexusBootstrapServer.classifyPeer m).trustLevel = "trusted"
      ∧ (NexusBootstrapServer.classifyPeer m).isOfficial = true)
    ∧ (¬ (∃ b, m.bundleId = some b ∧ b ∈ NexusBootstrapServer.officialBundleIds) →
      (∃ a, m.appName = some a ∧ includesChars "nexus".data a.toLower.data = true) →
      (NexusBootstrapServer.classifyPeer m).appVariant = "fork"
      ∧ (NexusBootstrapServer.classifyPeer m).trustLevel = "semi-trusted")
    ∧ (¬ (∃ b, m.bundleId = some b ∧ b ∈ NexusBootstrapServer.officialBundleIds) →
      ¬ (∃ a, m.appName = some a ∧ includesChars "nexus".data a.toLower.data = true) →
      (NexusBootstrapServer.classifyPeer m).appVariant = "custom"
      ∧ (NexusBootstrapServer.classifyPeer m).trustLevel = "untrusted")
    ∧ (m.appName = none → (NexusBootstrapServer.classifyPeer m).appName = "Unknown")
    ∧ (m.appVersion = none → (NexusBootstrapServer.classifyPeer m).appVersion = "Unknown")
    ∧ (m.bundleId = none → (NexusBootstrapServer.classifyPeer m).bundleId = "Unknown")
    ∧ (m.userAgent = none → (NexusBootstrapServer.classifyPeer m).userAgent = "Unknown") := by
  refine ⟨?_, ?_, ?_, ?_, ?_, ?_, ?_⟩
  · rintro ⟨b, hb, hmem⟩
    simp [NexusBootstrapServer.classifyPeer, hb, hmem]
  · rintro hno ⟨a, ha, hinc⟩
    cases hb : m.bundleId with
    | none => simp [NexusBootstrapServer.classifyPeer, hb, ha, hinc]
    | some b =>
        have hnb : b ∉ NexusBootstrapServer.officialBundleIds := fun hm => hno ⟨b, hb, hm⟩
        simp [NexusBootstrapServer.classifyPeer, hb, ha, hinc, hnb]
  · intro hno hnoname
    cases hb : m.bundleId with
    | none =>
        cases ha : m.appName with
        | none => simp [NexusBootstrapServer.classifyPeer, hb, ha]
        | some a =>
            have hna : includesChars "nexus".data a.toLower.data = false := by
              cases hia : includesChars "nexus".data a.toLower.data with
              | true => exact absurd ⟨a, ha, hia⟩ hnoname
              | false => rfl
            simp [NexusBootstrapServer.classifyPeer, hb, ha, hna]
    | some b =>
        have hnb : b ∉ NexusBootstrapServer.officialBundleIds := fun hm => hno ⟨b, hb, hm⟩
        cases ha : m.appName with
        | none => simp [NexusBootstrapServer.classifyPeer, hb, ha, hnb]
        | some a =>
            have hna : includesChars "nexus".data a.toLower.data = false := by
              cases hia : includesChars "nexus".data a.toLower.data with
              | true => exact absurd ⟨a, ha, hia⟩ hnoname
              | false => rfl
            simp [NexusBootstrapServer.classifyPeer, hb, ha, hnb, hna]
  · intro h; simp [NexusBootstrapServer.classifyPeer, jsOrStr, h]
  · intro h; simp [NexusBootstrapServer.classifyPeer, jsOrStr, h]
  · intro h; simp [NexusBootstrapServer.classifyPeer, jsOrStr, h]
  · intro h; simp [NexusBootstrapServer.classifyPeer, jsOrStr, h]

/-- Witness for c9_classifyPeer_first_match: an allow-listed bundleId with all
other fields missing is official and trusted with Unknown defaults. -/
theorem c9_classifyPeer_first_match_witness :
    (NexusBootstrapServer.classifyPeer { bundleId := some "com.nexus.mobile.v1" }).appVariant
        = "official"
    ∧ (NexusBootstrapServer.classifyPeer { bundleId := some "com.nexus.mobile.v1" }).trustLevel
        = "trusted"
    ∧ (NexusBootstrapServer.classifyPeer { bundleId := some "com.nexus.mobile.v1" }).appName
        = "Unknown"
    ∧ (NexusBootstrapServer.classifyPeer { bundleId := some "com.nexus.mobile.v1" }).userAgent
        = "Unknown" :=
  ⟨((c9_classifyPeer_first_match { bundleId := some "com.nexus.mobile.v1" }).1
      ⟨"com.nexus.mobile.v1", rfl, by decide⟩).1,
   ((c9_classifyPeer_first_match { bundleId := some "com.nexus.mobile.v1" }).1
      ⟨"com.nexus.mobile.v1", rfl, by decide⟩).2.1,
   (c9_classifyPeer_first_match { bundleId := some "com.nexus.mobile.v1" }).2.2.2.1 rfl,
   (c9_classifyPeer_first_match { bundleId := some "com.nexus.mobile.v1" }).2.2.2.2.2.2 rfl⟩

theorem mapGet_mem {α : Type} {m : List (String × α)} {k : String} {p : α}
    (h : mapGet m k = some p) : (k, p) ∈ m := by
  rw [mapGet] at h
  cases hf : m.find? (fun kv => kv.1 == k) with
  | none => simp [hf] at h
  | some kv =>
      simp only [hf, Option.some.injEq] at h
      have hkm := List.mem_of_find?_eq_some hf
      have hkk : kv.1 = k := by simpa using List.find?_some hf
      obtain ⟨k1, v1⟩ := kv
      cases h
      cases hkk
      exact hkm

theorem mapGet_find?_none {α : Type} {m : List (String × α)} {k : String}
    (h : mapGet m k = none) : ∀ kv ∈ m, (kv.1 == k) = false := by
  rw [mapGet] at h
  cases hf : m.find? (fun kv => kv.1 == k) with
  | none =>
      intro kv hkv
      have := List.find?_eq_none.mp hf kv hkv
      simpa using this
  | some kv => simp [hf] at h

theorem removePeer_activePeers (st : NexusBootstrapServer.ServerState) (i : String) :
    (NexusBootstrapServer.removePeer st i).activePeers
      = st.activePeers.filter (fun kv => kv.1 != i) := by
  unfold NexusBootstrapServer.removePeer
  cases hget : mapGet st.activePeers i with
  | some p => rfl
  | none =>
      have hall := mapGet_find?_none hget
      have : st.activePeers.filter (fun kv => kv.1 != i) = st.activePeers := by
        rw [List.filter_eq_self]
        intro kv hkv
        simpa using hall kv hkv
      rw [this]

theorem foldl_removePeer_activePeers (ids : List String)
    (st : NexusBootstrapServer.ServerState) :
    (ids.foldl (fun s i => NexusBootstrapServer.removePeer s i) st).activePeers
      = st.activePeers.filter (fun kv => !(ids.contains kv.1)) := by
  induction ids generalizing st with
  | nil => simp
  | cons i t ih =>
      rw [List.foldl_cons, ih, removePeer_activePeers, List.filter_filter]
      congr 1
      funext kv
      by_cases h : kv.1 = i
      · simp [h]
      · simp [h, Ne.symm h]

theorem cleanup_activePeers (st : NexusBootstrapServer.ServerState) (now : Nat) :
    (NexusBootstrapServer.cleanupInactivePeers st now).activePeers
      = st.activePeers.filter (fun kv =>
          !(((st.activePeers.filter (fun kv2 => kv2.2.lastSeen < now - 300000)).map
              (fun kv2 => kv2.1)).contains kv.1)) := by
  unfold NexusBootstrapServer.cleanupInactivePeers
  rw [← List.foldl_map, foldl_removePeer_activePeers]

theorem pmRemovePeer_peers (st : PeerManager.State) (i : String) :
    ((PeerManager.removePeer st i).2).peers = st.peers.filter (fun kv => kv.1 != i) := rfl

theorem foldl_pmRemovePeer_peers (ids : List String) (st : PeerManager.State) :
    (ids.foldl (fun s i => (PeerManager.removePeer s i).2) st).peers
      = st.peers.filter (fun kv => !(ids.contains kv.1)) := by
  induction ids generalizing st with
  | nil => simp
  | cons i t ih =>
      rw [List.foldl_cons, ih, pmRemovePeer_peers, List.filter_filter]
      congr 1
      funext kv
      by_cases h : kv.1 = i
      · simp [h]
      · simp [h, Ne.symm h]

theorem pmCleanup_peers (st : PeerManager.State) (now maxAge : Nat) :
    (PeerManager.cleanupStalePeers st now maxAge).peers
      = st.peers.filter (fun kv =>
          !(((st.peers.filter (fun kv2 => now - kv2.2.lastSeen > maxAge)).map
              (fun kv2 => kv2.1)).contains kv.1)) := by
  unfold PeerManager.cleanupStalePeers
  rw [foldl_pmRemovePeer_peers]

theorem mapGet_evict {α : Type} (m : List (String × α)) (stale : String × α → Bool)
    (id : String) (p : α) (hn : (m.map (fun kv => kv.1)).Nodup)
    (hget : mapGet m id = some p) :
    (stale (id, p) = true →
      mapGet (m.filter (fun kv =>
        !(((m.filter stale).map (fun kv2 => kv2.1)).contains kv.1))) id = none)
    ∧ (stale (id, p) = false →
      mapGet (m.filter (fun kv =>
        !(((m.filter stale).map (fun kv2 => kv2.1)).contains kv.1))) id = some p) := by
  constructor
  · intro hstale
    apply mapGet_filter_of_drop
    intro kv hkv hkey
    have hidmem : id ∈ (m.filter stale).map (fun kv2 => kv2.1) := by
      have hmem : (id, p) ∈ m.filter stale :=
        List.mem_filter.mpr ⟨mapGet_mem hget, hstale⟩
      exact List.mem_map_of_mem _ hmem
    rw [hkey]
    simp [hidmem]
  · intro hfresh
    rw [mapGet_filter_of_keep]
    · exact hget
    · intro kv hkv hkey
      rw [hkey]
      have hid : id ∉ (m.filter stale).map (fun kv2 => kv2.1) := by
        intro hidmem
        rcases List.mem_map.mp hidmem with ⟨kv2, hkv2, hkey2⟩
        have hkv2m := List.mem_filter.mp hkv2
        have heq := mapGet_unique hn hget kv2 hkv2m.1 hkey2
        have hst := hkv2m.2
        rw [heq] at hst
        rw [hfresh] at hst
        exact Bool.false_ne_true hst
      simp [hid]

/-- C5: after an eviction tick, every peer whose age now - lastSeen exceeds
the staleness threshold is absent from the registry, and every peer within
the threshold is still present with its record unchanged — for the
NexusBootstrapServer variant (threshold 300000 ms) and the server.js
PeerManager variant (threshold 600000 ms). -/
theorem c5_eviction_tick :
    (∀ (st : NexusBootstrapServer.ServerState) (now : Nat) (id : String)
        (p : NexusBootstrapServer.PeerRecord),
        (st.activePeers.map (fun kv => kv.1)).Nodup →
        mapGet st.activePeers id = some p →
        ((now - p.lastSeen > 300000 →
            mapGet (NexusBootstrapServer.cleanupInactivePeers st now).activePeers id = none)
         ∧ (now - p.lastSeen ≤ 300000 →
            mapGet (NexusBootstrapServer.cleanupInactivePeers st now).activePeers id = some p)))
    ∧ (∀ (st : PeerManager.State) (now : Nat) (id : String) (p : PeerManager.Peer),
        (st.peers.map (fun kv => kv.1)).Nodup →
        mapGet st.peers id = some p →
        ((now - p.lastSeen > 600000 →
            mapGet (PeerManager.cleanupStalePeers st now 600000).peers id = none)
         ∧ (now - p.lastSeen ≤ 600000 →
            mapGet (PeerManager.cleanupStalePeers st now 600000).peers id = some p))) := by
  constructor
  · intro st now id p hn hget
    have h := mapGet_evict st.activePeers
      (fun kv => decide (kv.2.lastSeen < now - 300000)) id p hn hget
    constructor
    · intro hstale
      rw [cleanup_activePeers]
      exact h.1 (by simp only [decide_eq_true_eq]; omega)
    · intro hfresh
      rw [cleanup_activePeers]
      exact h.2 (by simp only [decide_eq_false_iff_not]; omega)
  · intro st now id p hn hget
    have h := mapGet_evict st.peers
      (fun kv => decide (now - kv.2.lastSeen > 600000)) id p hn hget
    constructor
    · intro hstale
      rw [pmCleanup_peers]
      exact h.1 (by simp only [decide_eq_true_eq]; omega)
    · intro hfresh
      rw [pmCleanup_peers]
      exact h.2 (by simp only [decide_eq_false_iff_not]; omega)

/-- Witness for c5_eviction_tick at concrete registries and tick time. -/
theorem c5_eviction_tick_witness :
    mapGet (NexusBootstrapServer.cleanupInactivePeers evictState 1000000).activePeers "old"
        = none
    ∧ mapGet (NexusBootstrapServer.cleanupInactivePeers evictState 1000000).activePeers "fresh"
        = some freshPeerRec
    ∧ mapGet (PeerManager.cleanupStalePeers pmEvictState 1000000 600000).peers "old" = none :=
  ⟨(c5_eviction_tick.1 evictState 1000000 "old" stalePeerRec (by decide) (by decide)).1
      (by decide),
   (c5_eviction_tick.1 evictState 1000000 "fresh" freshPeerRec (by decide) (by decide)).2
      (by decide),
   (c5_eviction_tick.2 pmEvictState 1000000 "old" pmStalePeer (by decide) (by decide)).1
      (by decide)⟩

set_option maxRecDepth 8192 in
/-- C7 failing run: handlePeerRegistration adds the peer id to the new
region's set but never removes it from the old region's set, so after p
re-registers from a different origin the region index still lists p under
local while p's stored record carries a different region — the registry and
the region index disagree. -/
theorem c7_region_index_stale_entry :
    "p" ∈ (mapGet c7State.peersByRegion "local").getD []
    ∧ (mapGet c7State.activePeers "p").isSome
    ∧ (mapGet c7State.activePeers "p").map (fun rec => rec.region) ≠ some "local" := by
  refine ⟨?_, ?_, ?_⟩ <;> decide

/-- C2: for any registry whose stored records carry pairwise distinct node
ids (a Map invariant: every record's nodeId is its key), selectBootstrapPeers
returns at most 10 candidates, never the requester, never the same peer
twice, and splits into three ordered tiers: first at most 4 official
same-region peers, then non-untrusted same-region peers up to the cap, and a
final any-region tier that is nonempty only when fewer than 3 candidates had
been selected. -/
theorem c2_selectBootstrapPeers_tiers (st : NexusBootstrapServer.ServerState)
    (req region : String) (cls : NexusBootstrapServer.Classification)
    (hn : (st.activePeers.map (fun kv => kv.2.nodeId)).Nodup) :
    (NexusBootstrapServer.selectBootstrapPeers st req region cls).length ≤ 10
    ∧ (∀ c ∈ NexusBootstrapServer.selectBootstrapPeers st req region cls, c.nodeId ≠ req)
    ∧ ((NexusBootstrapServer.selectBootstrapPeers st req region cls).map
        (fun c => c.nodeId)).Nodup
    ∧ (∃ t1 t2 t3, NexusBootstrapServer.selectBootstrapPeers st req region cls
          = t1 ++ t2 ++ t3
        ∧ t1.length ≤ 4
        ∧ (∀ c ∈ t1, c.classification.appVariant = "official" ∧ c.region = region)
        ∧ (∀ c ∈ t2, c.classification.trustLevel ≠ "untrusted" ∧ c.region = region)
        ∧ (t3 ≠ [] → t1.length + t2.length < 3)) := by
  classical
  set P := st.activePeers.map (fun kv => kv.2) with hPdef
  have hP : (P.map (fun p => p.nodeId)).Nodup := by
    rw [hPdef, List.map_map]
    exact hn
  set f1 : NexusBootstrapServer.PeerRecord → Bool := fun p =>
    p.classification.appVariant == "official" && p.region == region && p.nodeId != req
    with hf1
  set l1 := (P.filter f1).take 4 with hl1
  have hlen1 : l1.length ≤ 4 := by
    rw [hl1, List.length_take]; exact Nat.min_le_left _ _
  set f2 : NexusBootstrapServer.PeerRecord → Bool := fun p =>
    p.classification.trustLevel != "untrusted" && p.region == region && p.nodeId != req
      && !(l1.any (fun q => q.nodeId == p.nodeId)) with hf2
  set l2 := (P.filter f2).take (10 - l1.length) with hl2
  have hlen2 : l2.length ≤ 10 - l1.length := by
    rw [hl2, List.length_take]; exact Nat.min_le_left _ _
  set f3 : NexusBootstrapServer.PeerRecord → Bool := fun p =>
    p.nodeId != req && !((l1 ++ l2).any (fun q => q.nodeId == p.nodeId)) with hf3
  set l3 := (P.filter f3).take (10 - (l1 ++ l2).length) with hl3
  have hlen3 : l3.length ≤ 10 - (l1 ++ l2).length := by
    rw [hl3, List.length_take]; exact Nat.min_le_left _ _
  set proj : NexusBootstrapServer.PeerRecord → NexusBootstrapServer.BootstrapCandidate :=
    fun p =>
      { nodeId := p.nodeId, address := p.address, classification := p.classification,
        region := p.region, lastSeen := p.lastSeen } with hproj
  have hcond1 : l1.length < 10 := by omega
  have hres : NexusBootstrapServer.selectBootstrapPeers st req region cls
      = (if (l1 ++ l2).length < 3 then (l1 ++ l2) ++ l3 else l1 ++ l2).map proj := by
    simp only [NexusBootstrapServer.selectBootstrapPeers, NexusBootstrapServer.getPeersByFilter]
    rw [if_pos hcond1]
  have hmem1 : ∀ p ∈ l1, f1 p = true := by
    intro p hp
    exact (List.mem_filter.mp ((List.take_sublist _ _).subset hp)).2
  have hmem2 : ∀ p ∈ l2, f2 p = true := by
    intro p hp
    exact (List.mem_filter.mp ((List.take_sublist _ _).subset hp)).2
  have hmem3 : ∀ p ∈ l3, f3 p = true := by
    intro p hp
    exact (List.mem_filter.mp ((List.take_sublist _ _).subset hp)).2
  have hsub1 : l1.Sublist P := (List.take_sublist _ _).trans (List.filter_sublist _)
  have hsub2 : l2.Sublist P := (List.take_sublist _ _).trans (List.filter_sublist _)
  have hsub3 : l3.Sublist P := (List.take_sublist _ _).trans (List.filter_sublist _)
  have hn1 : (l1.map (fun p => p.nodeId)).Nodup :=
    List.Nodup.sublist (List.Sublist.map _ hsub1) hP
  have hn2 : (l2.map (fun p => p.nodeId)).Nodup :=
    List.Nodup.sublist (List.Sublist.map _ hsub2) hP
  have hn3 : (l3.map (fun p => p.nodeId)).Nodup :=
    List.Nodup.sublist (List.Sublist.map _ hsub3) hP
  have hdisj12 : (l1.map (fun p => p.nodeId)).Disjoint (l2.map (fun p => p.nodeId)) := by
    intro a ha1 ha2
    rcases List.mem_map.mp ha2 with ⟨p, hp, rfl⟩
    have hf := hmem2 p hp
    rw [hf2] at hf
    simp only [Bool.and_eq_true, Bool.not_eq_true'] at hf
    rcases List.mem_map.mp ha1 with ⟨q, hq, hqe⟩
    have hq2 := List.any_eq_false.mp hf.2 q hq
    rw [hqe] at hq2
    simp at hq2
  have hdisj123 : ((l1 ++ l2).map (fun p => p.nodeId)).Disjoint
      (l3.map (fun p => p.nodeId)) := by
    intro a ha1 ha2
    rcases List.mem_map.mp ha2 with ⟨p, hp, rfl⟩
    have hf := hmem3 p hp
    rw [hf3] at hf
    simp only [Bool.and_eq_true, Bool.not_eq_true'] at hf
    rcases List.mem_map.mp ha1 with ⟨q, hq, hqe⟩
    have hq2 := List.any_eq_false.mp hf.2 q hq
    rw [hqe] at hq2
    simp at hq2
  have hn12 : ((l1 ++ l2).map (fun p => p.nodeId)).Nodup := by
    rw [List.map_append]
    exact List.Nodup.append hn1 hn2 hdisj12
  have hn123 : (((l1 ++ l2) ++ l3).map (fun p => p.nodeId)).Nodup := by
    rw [List.map_append]
    exact List.Nodup.append hn12 hn3 hdisj123
  have hreq1 : ∀ p ∈ l1, p.nodeId ≠ req := by
    intro p hp
    have hf := hmem1 p hp
    rw [hf1] at hf
    simp only [Bool.and_eq_true, bne_iff_ne] at hf
    exact hf.2
  have hreq2 : ∀ p ∈ l2, p.nodeId ≠ req := by
    intro p hp
    have hf := hmem2 p hp
    rw [hf2] at hf
    simp only [Bool.and_eq_true, bne_iff_ne] at hf
    exact hf.1.2
  have hreq3 : ∀ p ∈ l3, p.nodeId ≠ req := by
    intro p hp
    have hf := hmem3 p hp
    rw [hf3] at hf
    simp only [Bool.and_eq_true, bne_iff_ne] at hf
    exact hf.1
  have hprop1 : ∀ p ∈ l1, p.classification.appVariant = "official" ∧ p.region = region := by
    intro p hp
    have hf := hmem1 p hp
    rw [hf1] at hf
    simp only [Bool.and_eq_true, beq_iff_eq] at hf
    exact ⟨hf.1.1, hf.1.2⟩
  have hprop2 : ∀ p ∈ l2, p.classification.trustLevel ≠ "untrusted" ∧ p.region = region := by
    intro p hp
    have hf := hmem2 p hp
    rw [hf2] at hf
    simp only [Bool.and_eq_true, beq_iff_eq, bne_iff_ne] at hf
    exact ⟨hf.1.1.1, hf.1.1.2⟩
  by_cases hc3 : (l1 ++ l2).length < 3
  · rw [hres, if_pos hc3]
    have hlen : (((l1 ++ l2) ++ l3).map proj).length ≤ 10 := by
      rw [List.length_map, List.length_append, List.length_append] at *
      omega
    refine ⟨hlen, ?_, ?_, ?_⟩
    · intro c hc
      rcases List.mem_map.mp hc with ⟨p, hp, rfl⟩
      rcases List.mem_append.mp hp with hp12 | hp3
      · rcases List.mem_append.mp hp12 with hp1 | hp2
        · exact hreq1 p hp1
        · exact hreq2 p hp2
      · exact hreq3 p hp3
    · rw [List.map_map]
      exact hn123
    · refine ⟨l1.map proj, l2.map proj, l3.map proj, ?_, ?_, ?_, ?_, ?_⟩
      · rw [← List.map_append, ← List.map_append]
      · rw [List.length_map]; exact hlen1
      · intro c hc
        rcases List.mem_map.mp hc with ⟨p, hp, rfl⟩
        exact hprop1 p hp
      · intro c hc
        rcases List.mem_map.mp hc with ⟨p, hp, rfl⟩
        exact hprop2 p hp
      · intro _
        rw [List.length_map, List.length_map]
        rw [List.length_append] at hc3
        omega
  · rw [hres, if_neg hc3]
    have hlen : ((l1 ++ l2).map proj).length ≤ 10 := by
      rw [List.length_map, List.length_append]
      omega
    refine ⟨hlen, ?_, ?_, ?_⟩
    · intro c hc
      rcases List.mem_map.mp hc with ⟨p, hp, rfl⟩
      rcases List.mem_append.mp hp with hp1 | hp2
      · exact hreq1 p hp1
      · exact hreq2 p hp2
    · rw [List.map_map]
      exact hn12
    · refine ⟨l1.map proj, l2.map proj, [], ?_, ?_, ?_, ?_, ?_⟩
      · rw [List.append_nil, ← List.map_append]
      · rw [List.length_map]; exact hlen1
      · intro c hc
        rcases List.mem_map.mp hc with ⟨p, hp, rfl⟩
        exact hprop1 p hp
      · intro c hc
        rcases List.mem_map.mp hc with ⟨p, hp, rfl⟩
        exact hprop2 p hp
      · intro h
        exact absurd rfl h

/-- Witness for c2_selectBootstrapPeers_tiers at the spec's scenario. -/
theorem c2_selectBootstrapPeers_tiers_witness :
    (NexusBootstrapServer.selectBootstrapPeers c2State "req" "regionA" officialCls).length ≤ 10
    ∧ (∀ c ∈ NexusBootstrapServer.selectBootstrapPeers c2State "req" "regionA" officialCls,
        c.nodeId ≠ "req")
    ∧ ((NexusBootstrapServer.selectBootstrapPeers c2State "req" "regionA" officialCls).map
        (fun c => c.nodeId)).Nodup :=
  ⟨(c2_selectBootstrapPeers_tiers c2State "req" "regionA" officialCls (by decide)).1,
   (c2_selectBootstrapPeers_tiers c2State "req" "regionA" officialCls (by decide)).2.1,
   (c2_selectBootstrapPeers_tiers c2State "req" "regionA" officialCls (by decide)).2.2.1⟩
